import Mathlib

/-!
A verification development for the `nucleosynth` post-processing library.

The definitions below are a shallow embedding of the library's core data
model and operations, translated from the Python source:

* `nucleosynth/network.py` — isotope selection, grouped sums, yields,
  composition algebra, isotope name strings;
* `nucleosynth/tracers/extract.py` — table extraction from raw datasets;
* `nucleosynth/tracers/load_save.py` — the cache layer (`load_table`);
* `nucleosynth/models/model.py` — model-level yields (`Model.get_yields`);
* `nucleosynth/tracers/tracer.py` — the `Tracer.load_all` load sequence.

Numeric table entries are embedded as exact rationals (`ℚ`); a pandas
DataFrame of shape (rows × columns) becomes a `List (List ℚ)` of its rows.
Python exceptions become `Except` results (`Except PyError` where the
cache layer distinguishes exception kinds).  The one place where IEEE
float semantics (division by zero yielding infinity rather than an
exception) is itself the specified behaviour, a dedicated value type
`FVal` with `posInf`/`negInf`/`nan` is used.
-/

namespace Nucleosynth

/-- A row of a tracer network table: columns `isotope`, `Z`, `A`
(`extract.extract_network` builds rows in this shape). -/
structure NetRow where
  isotope : String
  Z : ℤ
  A : ℤ
deriving DecidableEq, Repr

/-- A composition (X or Y) table: a list of timestep rows, each row one
rational per isotope column. -/
abbrev CompTable := List (List ℚ)

/-- The `iso_group` argument of the grouping functions: group isotope
columns by mass number A (isobars) or charge number Z. -/
inductive IsoGroup
  | A
  | Z
deriving DecidableEq, Repr

/-- The network-row field selected by an `iso_group` key. -/
def groupVal : IsoGroup → NetRow → ℤ
  | .A, r => r.A
  | .Z, r => r.Z

/-- The boolean row mask computed inside `network.select_isotopes`:
`z_mask = (row['Z'] == z)`, `a_mask = (row['A'] == a)` (a pandas comparison
with `None` is elementwise `False`), combined with `logical_or` when one of
`z`, `a` is `None` and with `logical_and` when both are given.  Generic in
the row type, as the source function accepts any table with `Z` and `A`
columns (it is applied to both the network table and the yields table). -/
def rowMask {α : Type} (getZ getA : α → ℤ) (z a : Option ℤ) (r : α) : Bool :=
  let z_mask : Bool := match z with
    | some zv => getZ r == zv
    | none => false
  let a_mask : Bool := match a with
    | some av => getA r == av
    | none => false
  if z = none ∨ a = none then z_mask || a_mask else z_mask && a_mask

/-- `network.select_isotopes` generalized over the row type: raise
`ValueError` when both selectors are `None`, otherwise keep the rows whose
mask is true.  The subset keeps the original row order. -/
def select_rows {α : Type} (getZ getA : α → ℤ) (table : List α)
    (a z : Option ℤ) : Except String (List α) :=
  if z = none ∧ a = none then
    .error "Must specify at least one of Z, A"
  else
    .ok (table.filter (rowMask getZ getA z a))

/-- `network.select_isotopes(isotope_table, a, z)` on a network table. -/
def select_isotopes (isotope_table : List NetRow) (a z : Option ℤ) :
    Except String (List NetRow) :=
  select_rows (fun r => r.Z) (fun r => r.A) isotope_table a z

/-- Column projection of one table row by a boolean mask over column
positions: the source's `composition_table.iloc[:, sub_net.index]`, where
`sub_net.index` holds exactly the positions at which the selection mask is
true (the network table carries the default 0-based range index). -/
def projectMask (mask : List Bool) (row : List ℚ) : List ℚ :=
  ((mask.zip row).filter (fun p => p.1)).map (fun p => p.2)

/-- `network.select_composition(composition_table, tracer_network, z, a)`:
select the matching network rows, then project the corresponding columns
from the composition table. -/
def select_composition (composition_table : CompTable)
    (tracer_network : List NetRow) (z a : Option ℤ) :
    Except String CompTable :=
  match select_isotopes tracer_network a z with
  | .error e => .error e
  | .ok _ =>
      .ok (composition_table.map
        (projectMask (tracer_network.map (rowMask (fun r => r.Z) (fun r => r.A) z a))))

/-- `np.unique` on an integer column: the distinct values in ascending
order. -/
def npUnique (l : List ℤ) : List ℤ :=
  l.dedup.insertionSort (fun x y => x ≤ y)

/-- `network.get_network_unique(tracer_network)`: the unique A and Z values
of the network (`np.unique` applied to each column). -/
structure NetworkUnique where
  A : List ℤ
  Z : List ℤ
deriving DecidableEq, Repr

def get_network_unique (tracer_network : List NetRow) : NetworkUnique :=
  { A := npUnique (tracer_network.map (fun r => r.A))
    Z := npUnique (tracer_network.map (fun r => r.Z)) }

/-- The `(z, a)` selector pair `get_sums` passes for one group value:
grouping by A sets `a = val`, grouping by Z sets `z = val` (the other
selector stays `None`). -/
def groupSelector : IsoGroup → ℤ → Option ℤ × Option ℤ
  | .A, v => (none, some v)
  | .Z, v => (some v, none)

/-- `network.get_sums(composition_table, tracer_network, iso_group)`: for
every unique value of the group key, select the matching columns and store
their row-wise sum under that value.  Output: one `(label, column)` pair
per unique group value, labels in `np.unique` order. -/
def get_sums (composition_table : CompTable) (tracer_network : List NetRow)
    (iso_group : IsoGroup) : List (ℤ × List ℚ) :=
  (npUnique (tracer_network.map (groupVal iso_group))).map (fun val =>
    let za := groupSelector iso_group val
    let subset :=
      (select_composition composition_table tracer_network za.1 za.2).toOption.getD []
    (val, subset.map (fun row => row.sum)))

/-- `network.get_x(y_table, tracer_network)`: `X = Y*A`,
`y_table.multiply(a)` scaling column `i` of every row by `A_i`. -/
def get_x (y_table : CompTable) (tracer_network : List NetRow) : CompTable :=
  y_table.map (fun row =>
    List.zipWith (fun y a => y * a) row (tracer_network.map (fun r => (r.A : ℚ))))

/-- `network.get_sumy(y_table)`: row-wise sum over all isotope columns. -/
def get_sumy (y_table : CompTable) : List ℚ :=
  y_table.map (fun row => row.sum)

/-- IEEE-style value of a float computation: a finite rational, an
infinity, or NaN.  Table data itself is finite; `FVal` appears only where
the source relies on numpy float semantics instead of raising. -/
inductive FVal
  | finite (q : ℚ)
  | posInf
  | negInf
  | nan
deriving DecidableEq, Repr

/-- Numpy `1 / x` on a finite float `x`: ordinary reciprocal when `x ≠ 0`,
and `+inf` when `x == 0` (numpy emits a RuntimeWarning but no exception,
and `1/0.0 = +inf`). -/
def oneDivIEEE (q : ℚ) : FVal :=
  if q = 0 then .posInf else .finite (1 / q)

/-- `network.get_abar(y_table)`: `Abar = 1/sumY`, computed rowwise with
numpy float division — total, never an exception. -/
def get_abar (y_table : CompTable) : List FVal :=
  (get_sumy y_table).map oneDivIEEE

/-- `extract.extract_y(tracer_file, tracer_network)`: wrap the raw 2-D
abundance array `tracer_file['Y']` as a table and label its columns
positionally with the network's isotope names.  pandas raises a
`ValueError` when the label count does not match the column count, so the
embedding checks every (rectangular) row against `len(tracer_network)`. -/
def extract_y (raw_y : List (List ℚ)) (tracer_network : List NetRow) :
    Except String (List (List ℚ)) :=
  if raw_y.all (fun row => row.length == tracer_network.length) then
    .ok raw_y
  else
    .error "Length mismatch: columns"

/-- The part of a loaded `Tracer` that `network.get_yields` reads: its two
composition tables `composition['X']` and `composition['Y']`. -/
structure TracerComp where
  X : CompTable
  Y : CompTable
deriving DecidableEq, Repr

/-- `tracer.composition[abu_var].iloc[-1]`: the final timestep row. -/
def lastRow (table : CompTable) : List ℚ :=
  table.getLast?.getD []

/-- One output column of `network.get_yields`: starting from the column
`yields[abu_var] = 0.0` (one zero per network row), accumulate
`np.array(last_row) / n_tracers` over the tracers in order. -/
def yieldsColumn (tables : List CompTable) (width n_tracers : ℕ) : List ℚ :=
  tables.foldl
    (fun acc t => List.zipWith (fun s y => s + y / (n_tracers : ℚ)) acc (lastRow t))
    (List.replicate width 0)

/-- `network.get_yields(tracers, tracer_network)` with the default
`abu_vars = ('X', 'Y')`: the pair of accumulated X and Y yield columns
(each indexed like the network table). -/
def get_yields (tracers : List TracerComp) (tracer_network : List NetRow) :
    List ℚ × List ℚ :=
  (yieldsColumn (tracers.map (fun t => t.X)) tracer_network.length tracers.length,
   yieldsColumn (tracers.map (fun t => t.Y)) tracer_network.length tracers.length)

/-- The loaded state of a `Model` that `Model.get_yields` reads: the tracer
collection, the shared network table, and the mass grid loaded by
`load_mass_grid`. -/
structure ModelState where
  tracers : List TracerComp
  network : List NetRow
  mass_grid : List ℚ
deriving DecidableEq, Repr

/-- `Model.load_mass_grid`: `dmass = np.diff(mass_grid)[0]`, the spacing of
the first two grid points (uniform spacing is assumed, not checked). -/
def dmass (m : ModelState) : ℚ :=
  m.mass_grid.getD 1 0 - m.mass_grid.getD 0 0

/-- `Model.load_mass_grid`: `total_mass = len(self.tracers) * dmass`. -/
def totalMass (m : ModelState) : ℚ :=
  (m.tracers.length : ℚ) * dmass m

/-- The columns of the model-level yields table that `Model.get_yields`
produces beyond the copied network columns: X, Y, and `msun`. -/
structure YieldsTable where
  X : List ℚ
  Y : List ℚ
  msun : List ℚ
deriving DecidableEq, Repr

/-- `Model.get_yields`: `self.yields = network.get_yields(self.tracers,
self.network)` followed by `self.yields['msun'] = self.yields['X'] *
self.total_mass`. -/
def model_get_yields (m : ModelState) : YieldsTable :=
  let p := get_yields m.tracers m.network
  { X := p.1
    Y := p.2
    msun := p.1.map (fun x => x * totalMass m) }

/-- A cache key of the tracer cache layer: `(tracer_id, model, table_name)`
— exactly the triple `paths.tracer_cache_filepath` is keyed by. -/
abbrev CacheKey := ℕ × String × String

/-- The on-disk pickle store as a partial map from keys to tables; `none`
means no cache file exists for the key. -/
abbrev Cache := CacheKey → Option CompTable

/-- Result of one `load_save.load_table` call: the returned table, the
cache state after the call, and how many extractions were performed. -/
structure LoadTableResult where
  table : CompTable
  cache : Cache
  n_extractions : ℕ

/-- The Python exception kinds the cache layer distinguishes:
`load_table` catches `FileNotFoundError` only; every other exception
propagates to the caller. -/
inductive PyError
  | fileNotFound
  | attributeError (msg : String)
  | valueError (msg : String)
deriving DecidableEq, Repr

/-- The function names the module `nucleosynth/paths.py` defines (its
module attributes), transcribed from the source file. -/
def paths_defs : List String :=
  ["repo_path", "skynet_path", "get_model_paths", "model_path",
   "tracer_filename", "tracer_filepath", "stir_filename", "stir_filepath",
   "model_cache_path", "cache_filename", "cache_filepath", "try_mkdir"]

/-- `load_save.load_table_cache(tracer_id, model, table_name)`: resolves
`paths.tracer_cache_filepath` at call time — `AttributeError` when
`paths.py` does not define that attribute — then unpickles the file at
that path, `FileNotFoundError` when no cached table exists for the
key. -/
def load_table_cache (cache : Cache) (key : CacheKey) :
    Except PyError CompTable :=
  if "tracer_cache_filepath" ∈ paths_defs then
    match cache key with
    | some t => .ok t
    | none => .error .fileNotFound
  else
    .error (.attributeError "module paths has no attribute tracer_cache_filepath")

/-- `load_save.save_table_cache(table, tracer_id, model, table_name)`:
`check_cache_path` resolves `paths.tracer_cache_path` first
(`AttributeError` when `paths.py` does not define it), then the file path
comes from `paths.tracer_cache_filepath`, and the table is pickled under
the key. -/
def save_table_cache (cache : Cache) (key : CacheKey) (table : CompTable) :
    Except PyError Cache :=
  if "tracer_cache_path" ∉ paths_defs then
    .error (.attributeError "module paths has no attribute tracer_cache_path")
  else if "tracer_cache_filepath" ∉ paths_defs then
    .error (.attributeError "module paths has no attribute tracer_cache_filepath")
  else
    .ok (fun k => if k = key then some table else cache k)

/-- `load_save.load_table(tracer_id, model, table_name, ..., reload,
save)`: reject an invalid `table_name`; unless `reload` is set, call
`load_table_cache` inside a handler that catches only
`FileNotFoundError` (any other exception propagates to the caller); when
no cached table was obtained, extract the table once and, when `save` is
set, persist it via `save_table_cache` before returning.  `extracted`
stands for the result of the single `extract_table` call. -/
def load_table (tracer_id : ℕ) (model table_name : String)
    (reload save : Bool) (cache : Cache) (extracted : CompTable) :
    Except PyError LoadTableResult :=
  if ¬ (table_name = "columns" ∨ table_name = "network" ∨
        table_name = "X" ∨ table_name = "Y") then
    .error (.valueError "table_name must be one of: columns, X, Y")
  else
    let key : CacheKey := (tracer_id, model, table_name)
    let read : Except PyError (Option CompTable) :=
      if reload then .ok none
      else
        match load_table_cache cache key with
        | .ok t => .ok (some t)
        | .error .fileNotFound => .ok none
        | .error e => .error e
    match read with
    | .error e => .error e
    | .ok (some t) => .ok ⟨t, cache, 0⟩
    | .ok none =>
        if save then
          match save_table_cache cache key extracted with
          | .error e => .error e
          | .ok cache' => .ok ⟨extracted, cache', 1⟩
        else
          .ok ⟨extracted, cache, 1⟩

/-- Modelled from the spec: the static element-symbol table of
`nucleosynth/config/elements.py` (imported by `network.py` as
`elements.elements`) is not part of the sources; the spec describes it as a
static global table keyed by Z whose Z=0 entry is the neutron symbol "n".
A representative finite table with lowercase symbols (the style the code
uses, e.g. `composition['X']['ni56']`). -/
def elements : List (ℤ × String) :=
  [(0, "n"), (1, "h"), (2, "he"), (6, "c"), (8, "o"),
   (14, "si"), (26, "fe"), (28, "ni")]

/-- `network.get_element_str(z)`: look the symbol up in the static table,
raising when `z` has no entry. -/
def get_element_str (z : ℤ) : Except String String :=
  match elements.lookup z with
  | some s => .ok s
  | none => .error "element not defined. Check config/elements.py"

/-- `network.get_isotope_str(z, a)`: raise `ValueError('Invalid isotope')`
when `a < 1 or z < 0`; then look up the element symbol; for `z == 0`
return the bare neutron symbol when `a == 1` and raise otherwise;
for other z return `f'{element}{a}'`. -/
def get_isotope_str (z a : ℤ) : Except String String :=
  if a < 1 ∨ z < 0 then
    .error "Invalid isotope"
  else
    match get_element_str z with
    | .error e => .error e
    | .ok element =>
        if z = 0 then
          if a = 1 then .ok element else .error "Invalid isotope"
        else
          .ok (element ++ toString a)

/-- A row of the model-level yields table built by `network.get_yields`:
the copied network columns plus the X and Y yield columns. -/
structure YieldRow where
  isotope : String
  Z : ℤ
  A : ℤ
  X : ℚ
  Y : ℚ
deriving DecidableEq, Repr

/-- `network.get_yield_sums(yields, iso_group)` with the default
`abu_vars = ('X', 'Y')`: one output row per unique group value (the
`np.unique` order), holding the group value and the X and Y sums over the
`select_isotopes` subset for that value. -/
def get_yield_sums (yields : List YieldRow) (iso_group : IsoGroup) :
    List (ℤ × ℚ × ℚ) :=
  (npUnique (yields.map (fun r =>
      match iso_group with
      | .A => r.A
      | .Z => r.Z))).map (fun val =>
    let za := groupSelector iso_group val
    let subset :=
      (select_rows (fun r : YieldRow => r.Z) (fun r => r.A) yields za.2 za.1).toOption.getD []
    (val, ((subset.map (fun r => r.X)).sum, (subset.map (fun r => r.Y)).sum)))

/-- The function names the module `nucleosynth/tracers/load_save.py`
defines (its module attributes), transcribed from the source file. -/
def load_save_defs : List String :=
  ["load_files", "load_file", "load_table", "extract_table",
   "load_composition", "load_composition_sums",
   "save_composition_sums_cache", "load_composition_sums_cache",
   "load_stir_tracer", "get_stir_mass_grid", "get_stir_mass_element",
   "save_table_cache", "load_table_cache", "check_cache_path"]

/-- Which of a `Tracer`'s table attributes have been populated (are no
longer `None`) during its load sequence. -/
structure TracerState where
  files : Bool
  stir : Bool
  columns : Bool
  network : Bool
  composition : Bool
  sums : Bool
deriving DecidableEq, Repr

/-- `Tracer.__init__` leaves every table attribute `None` before `load_all`
runs. -/
def tracerInit : TracerState :=
  ⟨false, false, false, false, false, false⟩

/-- A `Tracer` method body that calls `load_save.<fname>(...)`: Python
resolves the attribute at call time, raising `AttributeError` when the
module does not define `fname`; on success the step populates its
attribute. -/
def callLoadSave (fname : String) (st : TracerState)
    (update : TracerState → TracerState) : Except String TracerState :=
  if fname ∈ load_save_defs then
    .ok (update st)
  else
    .error ("AttributeError: module load_save has no attribute " ++ fname)

/-- `Tracer.load_files`: `load_save.load_files(...)`. -/
def tracer_load_files (st : TracerState) : Except String TracerState :=
  callLoadSave "load_files" st (fun s => { s with files := true })

/-- `Tracer.load_stir`: `load_save.load_stir_tracer(...)`. -/
def tracer_load_stir (st : TracerState) : Except String TracerState :=
  callLoadSave "load_stir_tracer" st (fun s => { s with stir := true })

/-- `Tracer.load_columns`: `load_save.load_table(..., table_name='columns')`. -/
def tracer_load_columns (st : TracerState) : Except String TracerState :=
  callLoadSave "load_table" st (fun s => { s with columns := true })

/-- `Tracer.load_network`: `load_save.load_table(..., table_name='network')`. -/
def tracer_load_network (st : TracerState) : Except String TracerState :=
  callLoadSave "load_table" st (fun s => { s with network := true })

/-- `Tracer.load_composition`: `load_save.load_composition(...)`. -/
def tracer_load_composition (st : TracerState) : Except String TracerState :=
  callLoadSave "load_composition" st (fun s => { s with composition := true })

/-- `Tracer.load_sums`: `self.sums = load_save.load_sums(...)`. -/
def tracer_load_sums (st : TracerState) : Except String TracerState :=
  callLoadSave "load_sums" st (fun s => { s with sums := true })

/-- `Tracer.load_all`: the load sequence `load_files`, `load_stir`,
`load_columns`, `load_network`, `load_composition`, `load_sums` run in
order (the derived-quantity steps `get_most_abundant`, `get_sumy_abar`,
`get_zbar`, `get_summary` follow only if all of these succeed); the first
raising step aborts the sequence. -/
def tracer_load_all (st : TracerState) : Except String TracerState := do
  let st1 ← tracer_load_files st
  let st2 ← tracer_load_stir st1
  let st3 ← tracer_load_columns st2
  let st4 ← tracer_load_network st3
  let st5 ← tracer_load_composition st4
  tracer_load_sums st5

/-- The round-trip comparator of the spec's property list: divide column
`i` of a (mass-fraction) table by the network's `A_i`, the inverse of
`get_x`. -/
def divideByA (x_table : CompTable) (tracer_network : List NetRow) : CompTable :=
  x_table.map (fun row =>
    List.zipWith (fun x a => x / a) row (tracer_network.map (fun r => (r.A : ℚ))))

/-! ### Helper lemmas -/

theorem zipWith_getElem? {α β γ : Type} (f : α → β → γ) (as : List α) (bs : List β)
    (i : ℕ) (a0 : α) (b0 : β) (h1 : i < as.length) (h2 : i < bs.length) :
    (List.zipWith f as bs)[i]? = some (f (as.getD i a0) (bs.getD i b0)) := by
  induction as generalizing bs i with
  | nil => simp at h1
  | cons a as ih =>
    cases bs with
    | nil => simp at h2
    | cons b bs =>
      cases i with
      | zero => simp
      | succ n =>
        simpa using ih bs n (by simpa using h1) (by simpa using h2)

theorem sum_map_div (l : List ℚ) (c : ℚ) :
    (l.map (fun x => x / c)).sum = l.sum / c := by
  induction l with
  | nil => simp
  | cons x xs ih => simp [ih, add_div]

theorem sum_map_add_split {α : Type} (l : List α) (f g : α → ℚ) :
    (l.map (fun x => f x + g x)).sum = (l.map f).sum + (l.map g).sum := by
  induction l with
  | nil => simp
  | cons x xs ih =>
    simp only [List.map_cons, List.sum_cons, ih]
    ring

theorem zip_mul_div (row as : List ℚ) (h : row.length = as.length)
    (ha : ∀ x ∈ as, x ≠ 0) :
    List.zipWith (fun x a => x / a)
      (List.zipWith (fun y a => y * a) row as) as = row := by
  induction row generalizing as with
  | nil => simp
  | cons y row ih =>
    cases as with
    | nil => simp at h
    | cons a as =>
      have h' : row.length = as.length := by simpa using h
      have ha' : ∀ x ∈ as, x ≠ 0 := fun x hx => ha x (List.mem_cons_of_mem _ hx)
      have hane : a ≠ 0 := ha a (List.mem_cons_self _ _)
      simp only [List.zipWith]
      rw [mul_div_cancel_right₀ _ hane, ih as h' ha']

theorem projectMask_cons (b : Bool) (mask : List Bool) (y : ℚ) (row : List ℚ) :
    projectMask (b :: mask) (y :: row) =
      if b then y :: projectMask mask row else projectMask mask row := by
  cases b <;> simp [projectMask]

theorem projectMask_map_pred {α : Type} (p : α → Bool) (ks : List α) (row : List ℚ)
    (h : row.length = ks.length) :
    projectMask (ks.map p) row =
      ((ks.zip row).filter (fun q => p q.1)).map (fun q => q.2) := by
  induction ks generalizing row with
  | nil =>
    cases row with
    | nil => simp [projectMask]
    | cons y row => simp at h
  | cons k ks ih =>
    cases row with
    | nil => simp at h
    | cons y row =>
      have h' : row.length = ks.length := by simpa using h
      rw [List.map_cons, projectMask_cons, List.zip_cons_cons, List.filter_cons]
      by_cases hp : p k
      · simp [hp, ih row h']
      · simp [hp, ih row h']

theorem sum_ite_single (c : ℤ) (q : ℚ) (ks : List ℤ) (hnd : ks.Nodup)
    (hc : c ∈ ks) :
    (ks.map (fun u => if c = u then q else 0)).sum = q := by
  induction ks with
  | nil => simp at hc
  | cons k ks ih =>
    have hknotin : k ∉ ks := (List.nodup_cons.mp hnd).1
    have hnd' : ks.Nodup := (List.nodup_cons.mp hnd).2
    rcases List.mem_cons.mp hc with hck | hcks
    · subst hck
      have hz : ∀ u ∈ ks, (if c = u then q else 0) = 0 := by
        intro u hu
        have : c ≠ u := fun heq => hknotin (heq ▸ hu)
        simp [this]
      have : (ks.map (fun u => if c = u then q else 0)).sum = 0 :=
        List.sum_eq_zero (by
          intro x hx
          rcases List.mem_map.mp hx with ⟨u, hu, rfl⟩
          exact hz u hu)
      simp [this]
    · have hck : c ≠ k := fun heq => hknotin (heq ▸ hcks)
      simp [hck, ih hnd' hcks]

theorem fiber_sum (pairs : List (ℤ × ℚ)) (ks : List ℤ) (hnd : ks.Nodup)
    (hcov : ∀ p ∈ pairs, p.1 ∈ ks) :
    (ks.map (fun v => ((pairs.filter (fun p => p.1 == v)).map (fun p => p.2)).sum)).sum
      = (pairs.map (fun p => p.2)).sum := by
  induction pairs with
  | nil => simp
  | cons p ps ih =>
    have hcov' : ∀ q ∈ ps, q.1 ∈ ks := fun q hq => hcov q (List.mem_cons_of_mem _ hq)
    have hstep : ∀ v : ℤ,
        (((p :: ps).filter (fun p => p.1 == v)).map (fun p => p.2)).sum
          = (if p.1 = v then p.2 else 0)
            + ((ps.filter (fun p => p.1 == v)).map (fun p => p.2)).sum := by
      intro v
      rw [List.filter_cons]
      by_cases hv : p.1 = v
      · simp [hv]
      · simp [hv]
    calc (ks.map (fun v => (((p :: ps).filter (fun p => p.1 == v)).map (fun p => p.2)).sum)).sum
        = (ks.map (fun v => (if p.1 = v then p.2 else 0)
            + ((ps.filter (fun p => p.1 == v)).map (fun p => p.2)).sum)).sum := by
          exact congrArg List.sum (List.map_congr_left (fun v _ => hstep v))
      _ = (ks.map (fun v => if p.1 = v then p.2 else 0)).sum
            + (ks.map (fun v => ((ps.filter (fun p => p.1 == v)).map (fun p => p.2)).sum)).sum := by
          exact sum_map_add_split ks _ _
      _ = p.2 + (ps.map (fun p => p.2)).sum := by
          rw [sum_ite_single p.1 p.2 ks hnd (hcov p (List.mem_cons_self _ _)), ih hcov']
      _ = ((p :: ps).map (fun p => p.2)).sum := by simp

theorem npUnique_perm_dedup (l : List ℤ) : List.Perm (npUnique l) l.dedup :=
  List.perm_insertionSort _ _

theorem npUnique_nodup (l : List ℤ) : (npUnique l).Nodup :=
  (npUnique_perm_dedup l).symm.nodup_iff.mp l.nodup_dedup

theorem mem_npUnique {v : ℤ} {l : List ℤ} (h : v ∈ l) : v ∈ npUnique l :=
  (npUnique_perm_dedup l).symm.subset (List.mem_dedup.mpr h)

theorem npUnique_sorted (l : List ℤ) : List.Sorted (· < ·) (npUnique l) := by
  have hle : List.Sorted (fun x y : ℤ => x ≤ y) (npUnique l) :=
    List.sorted_insertionSort _ _
  have hnd : (npUnique l).Nodup := npUnique_nodup l
  exact (hle.and hnd).imp (fun h => lt_of_le_of_ne h.1 h.2)

theorem yieldsColumn_foldl_getElem? (n : ℕ) (tables : List CompTable) (w : ℕ)
    (h : ∀ t ∈ tables, (lastRow t).length = w) (acc : List ℚ)
    (hacc : acc.length = w) (i : ℕ) (hi : i < w) :
    (tables.foldl
        (fun acc t => List.zipWith (fun s y => s + y / (n : ℚ)) acc (lastRow t))
        acc)[i]? =
      some (acc.getD i 0
        + (tables.map (fun t => (lastRow t).getD i 0 / (n : ℚ))).sum) := by
  induction tables generalizing acc with
  | nil =>
    have hlt : i < acc.length := hacc ▸ hi
    simp [List.getD_eq_getElem?_getD, List.getElem?_eq_getElem hlt]
  | cons t ts ih =>
    have ht : (lastRow t).length = w := h t (List.mem_cons_self _ _)
    have h' : ∀ u ∈ ts, (lastRow u).length = w :=
      fun u hu => h u (List.mem_cons_of_mem _ hu)
    have hlen : (List.zipWith (fun s y => s + y / (n : ℚ)) acc (lastRow t)).length = w := by
      simp [hacc, ht]
    rw [List.foldl_cons, ih h' _ hlen]
    have hz : (List.zipWith (fun s y => s + y / (n : ℚ)) acc (lastRow t)).getD i 0
        = acc.getD i 0 + (lastRow t).getD i 0 / (n : ℚ) := by
      rw [List.getD_eq_getElem?_getD,
        zipWith_getElem? _ acc (lastRow t) i 0 0 (hacc ▸ hi) (ht ▸ hi)]
      rfl
    rw [hz, List.map_cons, List.sum_cons]
    congr 1
    ring

theorem yieldsColumn_getElem? (tables : List CompTable) (w n : ℕ)
    (h : ∀ t ∈ tables, (lastRow t).length = w) (i : ℕ) (hi : i < w) :
    (yieldsColumn tables w n)[i]? =
      some ((1 / (n : ℚ)) * (tables.map (fun t => (lastRow t).getD i 0)).sum) := by
  rw [yieldsColumn,
    yieldsColumn_foldl_getElem? n tables w h (List.replicate w 0) (by simp) i hi]
  have h1 : (List.replicate w (0 : ℚ)).getD i 0 = 0 := by
    simp [List.getD_eq_getElem?_getD, List.getElem?_replicate, hi]
  have h2 : (tables.map (fun t => (lastRow t).getD i 0 / (n : ℚ))).sum
      = (tables.map (fun t => (lastRow t).getD i 0)).sum / (n : ℚ) := by
    rw [← sum_map_div, List.map_map]
    rfl
  rw [h1, h2]
  congr 1
  ring

theorem rowMask_a_only {α : Type} (getZ getA : α → ℤ) (av : ℤ) :
    rowMask getZ getA none (some av) = fun r => getA r == av := by
  funext r
  simp [rowMask]

theorem rowMask_z_only {α : Type} (getZ getA : α → ℤ) (zv : ℤ) :
    rowMask getZ getA (some zv) none = fun r => getZ r == zv := by
  funext r
  simp [rowMask]

theorem rowMask_both {α : Type} (getZ getA : α → ℤ) (zv av : ℤ) :
    rowMask getZ getA (some zv) (some av) =
      fun r => getZ r == zv && getA r == av := by
  funext r
  simp [rowMask]

theorem select_composition_group (table : CompTable) (net : List NetRow)
    (g : IsoGroup) (v : ℤ) :
    (select_composition table net (groupSelector g v).1 (groupSelector g v).2).toOption.getD []
      = table.map (projectMask (net.map (fun nr => groupVal g nr == v))) := by
  cases g with
  | A =>
    simp only [groupSelector, select_composition, select_isotopes, select_rows]
    rw [if_neg (by simp)]
    simp only [Except.toOption, Option.getD]
    rw [rowMask_a_only]
    rfl
  | Z =>
    simp only [groupSelector, select_composition, select_isotopes, select_rows]
    rw [if_neg (by simp)]
    simp only [Except.toOption, Option.getD]
    rw [rowMask_z_only]
    rfl

theorem get_sums_row (table : CompTable) (net : List NetRow) (g : IsoGroup)
    (hw : ∀ row ∈ table, row.length = net.length)
    (r : ℕ) (hr : r < table.length) :
    ((get_sums table net g).map (fun col => col.2.getD r 0)).sum
      = (table.getD r []).sum := by
  have hrowget : table.getD r [] = table[r] := by
    rw [List.getD_eq_getElem?_getD, List.getElem?_eq_getElem hr]
    rfl
  have hrowmem : table[r] ∈ table := List.getElem_mem hr
  have hrlen : table[r].length = net.length := hw _ hrowmem
  have hcols : (get_sums table net g).map (fun col => col.2.getD r 0)
      = (npUnique (net.map (groupVal g))).map (fun v =>
          (projectMask (net.map (fun nr => groupVal g nr == v)) table[r]).sum) := by
    simp only [get_sums, List.map_map]
    refine List.map_congr_left (fun v _ => ?_)
    simp only [Function.comp]
    rw [select_composition_group, List.map_map, List.getD_eq_getElem?_getD,
      List.getElem?_map, List.getElem?_eq_getElem hr]
    rfl
  rw [hcols, hrowget]
  have hfib : ∀ v : ℤ,
      (projectMask (net.map (fun nr => groupVal g nr == v)) table[r]).sum
        = ((((net.zip table[r]).map (fun q => (groupVal g q.1, q.2))).filter
              (fun p => p.1 == v)).map (fun p => p.2)).sum := by
    intro v
    rw [projectMask_map_pred _ _ _ hrlen, List.filter_map, List.map_map]
    rfl
  calc ((npUnique (net.map (groupVal g))).map (fun v =>
          (projectMask (net.map (fun nr => groupVal g nr == v)) table[r]).sum)).sum
      = ((npUnique (net.map (groupVal g))).map (fun v =>
          ((((net.zip table[r]).map (fun q => (groupVal g q.1, q.2))).filter
              (fun p => p.1 == v)).map (fun p => p.2)).sum)).sum := by
        exact congrArg List.sum (List.map_congr_left (fun v _ => hfib v))
    _ = (((net.zip table[r]).map (fun q => (groupVal g q.1, q.2))).map (fun p => p.2)).sum := by
        refine fiber_sum _ _ (npUnique_nodup _) ?_
        intro p hp
        rcases List.mem_map.mp hp with ⟨q, hq, rfl⟩
        exact mem_npUnique (List.mem_map.mpr ⟨q.1, (List.of_mem_zip hq).1, rfl⟩)
    _ = table[r].sum := by
        rw [List.map_map]
        have : (net.zip table[r]).map ((fun p : ℤ × ℚ => p.2) ∘ (fun q : NetRow × ℚ => (groupVal g q.1, q.2)))
            = (net.zip table[r]).map Prod.snd := rfl
        rw [this, List.map_snd_zip _ _ (le_of_eq hrlen)]

/-! ### Claim theorems -/

/-- C5: composition/network selection raises `MissingSelector` exactly when
both `z` and `a` are `None` (the functions are pure, so the input tables
are unchanged); with both given it returns the rows/columns whose network
entry matches both (intersection); with exactly one given it returns
precisely the rows/columns matching that one value. -/
theorem C5_selector_contract (composition_table : CompTable)
    (isotope_table : List NetRow) (zv av : ℤ) :
    (select_isotopes isotope_table none none =
      .error "Must specify at least one of Z, A") ∧
    (select_composition composition_table isotope_table none none =
      .error "Must specify at least one of Z, A") ∧
    (select_isotopes isotope_table (some av) (some zv) =
      .ok (isotope_table.filter (fun r => r.Z == zv && r.A == av))) ∧
    (select_composition composition_table isotope_table (some zv) (some av) =
      .ok (composition_table.map
        (projectMask (isotope_table.map (fun r => r.Z == zv && r.A == av))))) ∧
    (select_isotopes isotope_table (some av) none =
      .ok (isotope_table.filter (fun r => r.A == av))) ∧
    (select_isotopes isotope_table none (some zv) =
      .ok (isotope_table.filter (fun r => r.Z == zv))) ∧
    (select_composition composition_table isotope_table none (some av) =
      .ok (composition_table.map
        (projectMask (isotope_table.map (fun r => r.A == av))))) ∧
    (select_composition composition_table isotope_table (some zv) none =
      .ok (composition_table.map
        (projectMask (isotope_table.map (fun r => r.Z == zv))))) := by
  refine ⟨rfl, rfl, ?_, ?_, ?_, ?_, ?_, ?_⟩
  · simp only [select_isotopes, select_rows]
    rw [if_neg (by simp), rowMask_both]
  · simp only [select_composition, select_isotopes, select_rows]
    rw [if_neg (by simp), rowMask_both]
  · simp only [select_isotopes, select_rows]
    rw [if_neg (by simp), rowMask_a_only]
  · simp only [select_isotopes, select_rows]
    rw [if_neg (by simp), rowMask_z_only]
  · simp only [select_composition, select_isotopes, select_rows]
    rw [if_neg (by simp), rowMask_a_only]
  · simp only [select_composition, select_isotopes, select_rows]
    rw [if_neg (by simp), rowMask_z_only]

/-- C7: `isotope_name(z, a)` fails with `InvalidIsotope` whenever `a < 1`
or `z < 0`, and whenever `z = 0` with `a ≠ 1`; `isotope_name(0, 1)`
succeeds and returns the neutron symbol; and for every `z > 0` present in
the element table and every `a ≥ 1` it returns the element symbol followed
by the decimal rendering of `a`. -/
theorem C7_isotope_name (z a : ℤ) :
    ((a < 1 ∨ z < 0) → get_isotope_str z a = .error "Invalid isotope") ∧
    (z = 0 → a ≠ 1 → get_isotope_str z a = .error "Invalid isotope") ∧
    (get_isotope_str 0 1 = .ok "n") ∧
    (∀ s : String, elements.lookup z = some s → 0 < z → 1 ≤ a →
      get_isotope_str z a = .ok (s ++ toString a)) := by
  refine ⟨?_, ?_, by rfl, ?_⟩
  · intro h
    rw [get_isotope_str, if_pos h]
  · intro hz ha
    subst hz
    by_cases hlt : a < 1
    · rw [get_isotope_str, if_pos (Or.inl hlt)]
    · rw [get_isotope_str, if_neg (by simp [hlt])]
      have : get_element_str 0 = .ok "n" := rfl
      rw [this]
      simp [ha]
  · intro s hs hz ha
    rw [get_isotope_str,
      if_neg (by
        push_neg
        exact ⟨ha, le_of_lt hz⟩)]
    rw [get_element_str, hs]
    have hz0 : ¬ z = 0 := by omega
    simp [hz0]

/-- C7 witness: concrete instances of each part of `C7_isotope_name`:
`isotope_name(6, 0)` and `isotope_name(0, 2)` fail with `InvalidIsotope`,
`isotope_name(0, 1)` is the neutron symbol, and `isotope_name(26, 56)` is
the iron symbol followed by `56`. -/
theorem C7_isotope_name_witness :
    get_isotope_str 6 0 = .error "Invalid isotope" ∧
    get_isotope_str 0 2 = .error "Invalid isotope" ∧
    get_isotope_str 0 1 = .ok "n" ∧
    get_isotope_str 26 56 = .ok "fe56" := by
  refine ⟨(C7_isotope_name 6 0).1 (by decide),
    (C7_isotope_name 0 2).2.1 rfl (by decide),
    (C7_isotope_name 0 1).2.2.1, ?_⟩
  have h := (C7_isotope_name 26 56).2.2.2 "fe" (by decide) (by decide) (by decide)
  simpa using h

/-- C8: the claim states that constructing a `Tracer` with
`load_all = true` runs the full load sequence and ends fully loaded with
the sums tables populated; the code cannot do this: `Tracer.load_sums`
calls `load_save.load_sums`, an attribute the module
`nucleosynth/tracers/load_save.py` does not define (it defines
`load_composition_sums`), so `load_all` raises `AttributeError` at the
`load_sums` step on every construction and the sums are never
populated. -/
theorem C8_load_all_attribute_error :
    "load_sums" ∉ load_save_defs ∧
    tracer_load_all tracerInit =
      .error "AttributeError: module load_save has no attribute load_sums" := by
  exact ⟨by decide, by rfl⟩

/-- C9: `abar(y_table)` is `1 / sumy` rowwise; it is a total function (one
output value per row, never an exception), and a row whose Y-sum is zero
yields the IEEE infinity value rather than a guarded error. -/
theorem C9_abar_ieee (y_table : CompTable) (r : ℕ) (hr : r < y_table.length) :
    (get_abar y_table).length = y_table.length ∧
    ((y_table.getD r []).sum = 0 →
      (get_abar y_table)[r]? = some FVal.posInf) ∧
    ((y_table.getD r []).sum ≠ 0 →
      (get_abar y_table)[r]? = some (FVal.finite (1 / (y_table.getD r []).sum))) := by
  have hget : y_table.getD r [] = y_table[r] := by
    rw [List.getD_eq_getElem?_getD, List.getElem?_eq_getElem hr]
    rfl
  have hidx : (get_abar y_table)[r]? = some (oneDivIEEE y_table[r].sum) := by
    rw [get_abar, get_sumy, List.map_map, List.getElem?_map,
      List.getElem?_eq_getElem hr]
    rfl
  refine ⟨by simp [get_abar, get_sumy], ?_, ?_⟩
  · intro h0
    rw [hidx, oneDivIEEE, if_pos (by rw [← hget]; exact h0)]
  · intro h0
    rw [hidx, oneDivIEEE, if_neg (by rw [← hget]; exact h0), hget]

/-- C9 witness: on `[[1, -1], [2, 2]]` the first row sums to zero and abar
is `+inf`; the second row sums to 4 and abar is `1/4`. -/
theorem C9_abar_ieee_witness :
    (get_abar [[1, -1], [2, 2]])[0]? = some FVal.posInf ∧
    (get_abar [[1, -1], [2, 2]])[1]? = some (FVal.finite (1 / 4)) := by
  have hs0 : (([[1, -1], [2, 2]] : CompTable).getD 0 []).sum = 0 := by
    norm_num [List.getD]
  have hs1 : (([[1, -1], [2, 2]] : CompTable).getD 1 []).sum = 4 := by
    norm_num [List.getD]
  refine ⟨(C9_abar_ieee [[1, -1], [2, 2]] 0 (by decide)).2.1 hs0, ?_⟩
  have h := (C9_abar_ieee [[1, -1], [2, 2]] 1 (by decide)).2.2 (by rw [hs1]; norm_num)
  rw [hs1] at h
  exact h

/-- C10: the column labels of every grouped-sum table produced by
`get_sums`, the arrays returned by `get_network_unique`, and the group
column of `get_yield_sums` are the distinct group values in strictly
ascending numerical order with no duplicates (sorted order, not the
network's first-appearance order). -/
theorem C10_group_labels_sorted (net : List NetRow) (table : CompTable)
    (yields : List YieldRow) (g : IsoGroup) :
    List.Sorted (· < ·) ((get_sums table net g).map (fun c => c.1)) ∧
    List.Sorted (· < ·) (get_network_unique net).A ∧
    List.Sorted (· < ·) (get_network_unique net).Z ∧
    List.Sorted (· < ·) ((get_yield_sums yields g).map (fun c => c.1)) := by
  refine ⟨?_, npUnique_sorted _, npUnique_sorted _, ?_⟩
  · have h : (get_sums table net g).map (fun c => c.1)
        = npUnique (net.map (groupVal g)) := by
      simp only [get_sums, List.map_map]
      exact (List.map_congr_left (fun v _ => rfl)).trans (List.map_id _)
    rw [h]
    exact npUnique_sorted _
  · have h : (get_yield_sums yields g).map (fun c => c.1)
        = npUnique (yields.map (fun r =>
            match g with
            | .A => r.A
            | .Z => r.Z)) := by
      simp only [get_yield_sums, List.map_map]
      exact (List.map_congr_left (fun v _ => rfl)).trans (List.map_id _)
    rw [h]
    exact npUnique_sorted _

/-- C3: the claim states the cache discipline — a hit under
`reload=False` returned unmodified with no extraction, a miss absorbed
locally with exactly one extraction, the fresh table persisted under the
same key when `save=True`.  The code cannot honour it: `load_table_cache`
resolves `paths.tracer_cache_filepath` and `check_cache_path` resolves
`paths.tracer_cache_path`, neither of which `paths.py` defines, so with
`reload=False` every call raises `AttributeError` before any cached table
can be returned (the handler catches only `FileNotFoundError`), and with
`save=True` the persist step raises likewise — even on a populated
cache. -/
theorem C3_load_table_attribute_error :
    "tracer_cache_filepath" ∉ paths_defs ∧
    "tracer_cache_path" ∉ paths_defs ∧
    load_table 0 "m" "X" false true (fun _ => some [[1]]) [[2]]
      = .error (.attributeError
          "module paths has no attribute tracer_cache_filepath") ∧
    load_table 0 "m" "X" true true (fun _ => some [[1]]) [[2]]
      = .error (.attributeError
          "module paths has no attribute tracer_cache_path") := by
  exact ⟨by decide, by decide, rfl, rfl⟩

/-- C6: summing the grouped-sum columns reproduces, rowwise, the sum of
all columns of the ungrouped table (grouping by Z is a strict partition of
the isotope columns); and concretely, grouping by A over a network with A
values (1, 56, 56) and the Y table `[[0.1,0.3,0.6],[0.05,0.2,0.75]]`
yields columns `{1: [0.1,0.05], 56: [0.9,0.95]}`. -/
theorem C6_grouped_sum_partition :
    (∀ (table : CompTable) (net : List NetRow),
      (∀ row ∈ table, row.length = net.length) →
      ∀ r : ℕ, r < table.length →
        ((get_sums table net IsoGroup.Z).map (fun col => col.2.getD r 0)).sum
          = (table.getD r []).sum) ∧
    get_sums [[0.1, 0.3, 0.6], [0.05, 0.2, 0.75]]
        [⟨"n", 0, 1⟩, ⟨"fe56", 26, 56⟩, ⟨"ni56", 28, 56⟩] IsoGroup.A
      = [(1, [0.1, 0.05]), (56, [0.9, 0.95])] := by
  constructor
  · intro table net hw r hr
    exact get_sums_row table net IsoGroup.Z hw r hr
  · simp +decide only [get_sums, npUnique, List.dedup, List.insertionSort,
      List.orderedInsert, select_composition, select_isotopes, select_rows,
      rowMask, projectMask, groupSelector, groupVal, Except.toOption,
      List.filter_cons, List.filter_nil, List.map_cons, List.map_nil,
      List.zip_cons_cons, List.zip_nil_right, List.zip_nil_left,
      List.sum_cons, List.sum_nil, Option.getD, List.elem, reduceIte]
    norm_num

/-- C6 witness: the partition identity instantiated on a concrete 3-column
table and network. -/
theorem C6_grouped_sum_partition_witness :
    ((get_sums [[1, 2, 3]]
        [⟨"n", 0, 1⟩, ⟨"he4", 2, 4⟩, ⟨"c12", 6, 12⟩] IsoGroup.Z).map
          (fun col => col.2.getD 0 0)).sum
      = (([[1, 2, 3]] : CompTable).getD 0 []).sum :=
  C6_grouped_sum_partition.1 [[1, 2, 3]]
    [⟨"n", 0, 1⟩, ⟨"he4", 2, 4⟩, ⟨"c12", 6, 12⟩] (by decide) 0 (by decide)

/-- C4: whenever `extract_y` succeeds, every row of the resulting Y table
has exactly one column per network row (the columns are labelled
positionally by the network's isotope names), and `get_x` preserves that
column count, so row i of the network corresponds to column i of every
composition table. -/
theorem C4_composition_width (raw_y : List (List ℚ)) (tracer_network : List NetRow)
    (t : CompTable) (h : extract_y raw_y tracer_network = .ok t) :
    (∀ row ∈ t, row.length = tracer_network.length) ∧
    (∀ row ∈ get_x t tracer_network, row.length = tracer_network.length) := by
  have hall : ∀ row ∈ t, row.length = tracer_network.length := by
    intro row hrow
    by_cases hc : (raw_y.all (fun row => row.length == tracer_network.length)) = true
    · rw [extract_y, if_pos hc] at h
      cases h
      exact beq_iff_eq.mp (List.all_eq_true.mp hc row hrow)
    · rw [extract_y, if_neg hc] at h
      exact Except.noConfusion h
  refine ⟨hall, ?_⟩
  intro row hrow
  rcases List.mem_map.mp hrow with ⟨row0, hrow0, rfl⟩
  have h0 := hall row0 hrow0
  simp [List.length_zipWith, h0]

/-- C4 witness: a 2-column raw array against a 2-row network. -/
theorem C4_composition_width_witness :
    (∀ row ∈ ([[1, 2]] : CompTable), row.length =
      ([⟨"n", 0, 1⟩, ⟨"he4", 2, 4⟩] : List NetRow).length) ∧
    (∀ row ∈ get_x [[1, 2]] [⟨"n", 0, 1⟩, ⟨"he4", 2, 4⟩], row.length =
      ([⟨"n", 0, 1⟩, ⟨"he4", 2, 4⟩] : List NetRow).length) :=
  C4_composition_width [[1, 2]] [⟨"n", 0, 1⟩, ⟨"he4", 2, 4⟩] [[1, 2]] rfl

/-- C2: `get_x` scales column i of every row by the mass number `A_i`, and
dividing each column of the result by `A_i` recovers the original Y table
exactly, elementwise (every valid network row has `A ≥ 1`, so the division
is well-defined). -/
theorem C2_mass_fraction_roundtrip (y_table : CompTable)
    (tracer_network : List NetRow)
    (hw : ∀ row ∈ y_table, row.length = tracer_network.length)
    (hA : ∀ r ∈ tracer_network, 1 ≤ r.A) :
    (∀ ri i : ℕ, ri < y_table.length → i < tracer_network.length →
      ((get_x y_table tracer_network).getD ri []).getD i 0 =
        ((y_table.getD ri []).getD i 0) *
          ((tracer_network.map (fun r => (r.A : ℚ))).getD i 0)) ∧
    divideByA (get_x y_table tracer_network) tracer_network = y_table := by
  constructor
  · intro ri i hri hi
    have hri' : y_table.getD ri [] = y_table[ri] := by
      rw [List.getD_eq_getElem?_getD, List.getElem?_eq_getElem hri]
      rfl
    have hx : (get_x y_table tracer_network).getD ri []
        = List.zipWith (fun y a => y * a) y_table[ri]
            (tracer_network.map (fun r => (r.A : ℚ))) := by
      rw [get_x, List.getD_eq_getElem?_getD, List.getElem?_map,
        List.getElem?_eq_getElem hri]
      rfl
    have hrowmem : y_table[ri] ∈ y_table := List.getElem_mem hri
    have hlen : y_table[ri].length = tracer_network.length := hw _ hrowmem
    rw [hx, hri', List.getD_eq_getElem?_getD,
      zipWith_getElem? _ _ _ i 0 0 (by rw [hlen]; exact hi) (by simpa using hi)]
    rfl
  · rw [divideByA, get_x, List.map_map]
    have hrt : ∀ row ∈ y_table,
        List.zipWith (fun x a => x / a)
          (List.zipWith (fun y a => y * a) row
            (tracer_network.map (fun r => (r.A : ℚ))))
          (tracer_network.map (fun r => (r.A : ℚ))) = row := by
      intro row hrow
      refine zip_mul_div row _ (by simp [hw row hrow]) ?_
      intro x hx
      rcases List.mem_map.mp hx with ⟨r, hr, rfl⟩
      have h1 := hA r hr
      exact Int.cast_ne_zero.mpr (by omega)
    exact (List.map_congr_left (fun row hrow => hrt row hrow)).trans (List.map_id _)

/-- C2 witness: the round trip on the spec's 3-isotope scenario table. -/
theorem C2_mass_fraction_roundtrip_witness :
    divideByA
        (get_x [[0.1, 0.3, 0.6], [0.05, 0.2, 0.75]]
          [⟨"n", 0, 1⟩, ⟨"fe56", 26, 56⟩, ⟨"ni56", 28, 56⟩])
        [⟨"n", 0, 1⟩, ⟨"fe56", 26, 56⟩, ⟨"ni56", 28, 56⟩]
      = [[0.1, 0.3, 0.6], [0.05, 0.2, 0.75]] :=
  (C2_mass_fraction_roundtrip [[0.1, 0.3, 0.6], [0.05, 0.2, 0.75]]
    [⟨"n", 0, 1⟩, ⟨"fe56", 26, 56⟩, ⟨"ni56", 28, 56⟩]
    (by decide) (by decide)).2

/-- C1: for a fully loaded model, `get_yields` assigns each abundance kind
(X, Y) and each network isotope the mean over tracers of the final row of
that tracer's composition table, and `msun` is the X yield times
`total_mass = n_tracers * dmass` with `dmass = mass_grid[1] -
mass_grid[0]`. -/
theorem C1_model_yields (m : ModelState)
    (hX : ∀ t ∈ m.tracers, (lastRow t.X).length = m.network.length)
    (hY : ∀ t ∈ m.tracers, (lastRow t.Y).length = m.network.length)
    (i : ℕ) (hi : i < m.network.length) :
    ((model_get_yields m).X)[i]? =
      some ((1 / (m.tracers.length : ℚ)) *
        (m.tracers.map (fun t => (lastRow t.X).getD i 0)).sum) ∧
    ((model_get_yields m).Y)[i]? =
      some ((1 / (m.tracers.length : ℚ)) *
        (m.tracers.map (fun t => (lastRow t.Y).getD i 0)).sum) ∧
    ((model_get_yields m).msun)[i]? =
      some (((1 / (m.tracers.length : ℚ)) *
          (m.tracers.map (fun t => (lastRow t.X).getD i 0)).sum) *
        ((m.tracers.length : ℚ) *
          (m.mass_grid.getD 1 0 - m.mass_grid.getD 0 0))) := by
  have hX' : ∀ u ∈ m.tracers.map (fun t => t.X),
      (lastRow u).length = m.network.length := by
    intro u hu
    rcases List.mem_map.mp hu with ⟨t, ht, rfl⟩
    exact hX t ht
  have hY' : ∀ u ∈ m.tracers.map (fun t => t.Y),
      (lastRow u).length = m.network.length := by
    intro u hu
    rcases List.mem_map.mp hu with ⟨t, ht, rfl⟩
    exact hY t ht
  have hx : ((model_get_yields m).X)[i]? =
      some ((1 / (m.tracers.length : ℚ)) *
        (m.tracers.map (fun t => (lastRow t.X).getD i 0)).sum) := by
    show (yieldsColumn (m.tracers.map (fun t => t.X)) m.network.length
      m.tracers.length)[i]? = _
    rw [yieldsColumn_getElem? _ _ _ hX' i hi, List.map_map]
    rfl
  have hy : ((model_get_yields m).Y)[i]? =
      some ((1 / (m.tracers.length : ℚ)) *
        (m.tracers.map (fun t => (lastRow t.Y).getD i 0)).sum) := by
    show (yieldsColumn (m.tracers.map (fun t => t.Y)) m.network.length
      m.tracers.length)[i]? = _
    rw [yieldsColumn_getElem? _ _ _ hY' i hi, List.map_map]
    rfl
  refine ⟨hx, hy, ?_⟩
  have hmse : (model_get_yields m).msun
      = ((model_get_yields m).X).map (fun x => x * totalMass m) := rfl
  rw [hmse, List.getElem?_map, hx]
  rfl

/-- C1 witness: the spec's scenario C — two tracers, mass grid
`[0.1, 0.3]`, final-row X for Ni56 of 0.5 and 0.3 — gives a Ni56 yield of
0.4 and an msun of 0.16. -/
theorem C1_model_yields_witness :
    ((model_get_yields ⟨[⟨[[0.5]], [[0.5]]⟩, ⟨[[0.3]], [[0.3]]⟩],
        [⟨"ni56", 28, 56⟩], [0.1, 0.3]⟩).X)[0]? = some (0.4 : ℚ) ∧
    ((model_get_yields ⟨[⟨[[0.5]], [[0.5]]⟩, ⟨[[0.3]], [[0.3]]⟩],
        [⟨"ni56", 28, 56⟩], [0.1, 0.3]⟩).msun)[0]? = some (0.16 : ℚ) := by
  have h := C1_model_yields
    ⟨[⟨[[0.5]], [[0.5]]⟩, ⟨[[0.3]], [[0.3]]⟩], [⟨"ni56", 28, 56⟩], [0.1, 0.3]⟩
    (by decide) (by decide) 0 (by decide)
  constructor
  · rw [h.1]
    norm_num [lastRow, List.getD]
  · rw [h.2.2]
    norm_num [lastRow, List.getD]
